import Mathlib

/-!
Verification of the change-classification logic of
`demisto_sdk/commands/common/git_util.py`.

The module is a shallow embedding of the `GitUtil` class.  The external
version-control collaborator (GitPython) is represented as pure data: a
`GitRepo` structure holds the results of every query the code makes
(the committed diff keyed by reference name, the index diff, the raw
`git status --short -u` text, and the raw `git diff --name-only` text
keyed by reference name).  The Python string operations used by the code
(`str.replace`, `str.split`, `str.strip`, `str.startswith`, `str.upper`)
are modelled by structurally recursive Lean functions over `List Char`
so that all definitions evaluate by kernel reduction.

Python exceptions (`InvalidGitRepositoryError` on construction, the
`IndexError` raised by GitPython's reference lookup when the reference
does not resolve, and the `IndexError` raised by indexing into an empty
token list while parsing a status line) are modelled by `Except GitError`.
-/

/-- Errors the embedded code can raise.  `repositoryUnavailable` models the
`InvalidGitRepositoryError` re-raised by the constructor, `unknownReference`
models the lookup failure of `repo.remote().refs[prev_ver]`, and
`indexError` models the `IndexError` raised by `line.split()[0]` or
`line.split()[-2]` on a status line with too few tokens. -/
inductive GitError where
  | repositoryUnavailable
  | unknownReference
  | indexError
deriving DecidableEq

/-- Models Python `str.strip()`: drop whitespace from both ends. -/
def pyStrip (s : String) : String :=
  ⟨((s.data.dropWhile Char.isWhitespace).reverse.dropWhile Char.isWhitespace).reverse⟩

/-- Splits a character list at every character satisfying `p`, keeping empty
segments; the result is always nonempty.  This is the common core of the
Python `str.split` variants used by the code. -/
def splitSegments (p : Char → Bool) : List Char → List (List Char)
  | [] => [[]]
  | c :: cs =>
    let r := splitSegments p cs
    if p c then [] :: r
    else
      match r with
      | [] => [[c]]
      | h :: t => (c :: h) :: t

/-- Models Python `s.split('\n')`: split at newline characters, keeping
empty pieces (so the empty string yields `[""]`). -/
def pySplitLines (s : String) : List String :=
  (splitSegments (fun c => c = '\n') s.data).map (fun l => ⟨l⟩)

/-- Models Python `s.split()` with no argument: split at whitespace runs and
discard empty pieces (so the empty string yields `[]`). -/
def pySplitWs (s : String) : List String :=
  ((splitSegments Char.isWhitespace s.data).filter (fun l => l ≠ [])).map (fun l => ⟨l⟩)

/-- Models Python `s.startswith(pre)`. -/
def pyStartsWith (s pre : String) : Bool :=
  pre.data.isPrefixOf s.data

/-- Models Python `s.upper()` on the ASCII strings git emits. -/
def pyUpper (s : String) : String :=
  ⟨s.data.map Char.toUpper⟩

/-- Fuel-driven core of `str.replace('origin/', '')`: scan left to right and
remove every non-overlapping occurrence of `origin/`.  The fuel is the
length of the scanned list, so the first arm is never reached from
`stripOrigin`; it is present only to make the recursion structural. -/
def stripOriginCore (fuel : Nat) (l : List Char) : List Char :=
  match fuel, l with
  | 0, rest => rest
  | _ + 1, [] => []
  | f + 1, c :: cs =>
    if ("origin/".data).isPrefixOf (c :: cs) then stripOriginCore f (cs.drop 6)
    else c :: stripOriginCore f cs

/-- Models the Python statement `prev_ver = prev_ver.replace('origin/', '')`
at the top of each of the four operations. -/
def stripOrigin (s : String) : String :=
  ⟨stripOriginCore s.data.length s.data⟩

/-- Models `Path(os.path.join(s))` as the code applies it to a single path
string: `os.path.join` on one argument is the identity and the only
`pathlib` normalisation exercised by the code is `Path('') == Path('.')`
(claim C9); git-emitted path strings contain no redundant separators. -/
def toPath (s : String) : String :=
  if s = "" then "." else s

/-- The committed diff `repo.remote().refs[prev_ver].commit.diff(active_branch)`
for one reference: the `a_path` sets returned by `iter_change_type` for the
single-path change types, and the `(a_path, b_path)` pairs for type `R`. -/
structure CommitDiffData where
  byKind : Char → Finset String
  renames : Finset (String × String)

/-- The state of the repository as observed through the collaborator calls
made by `GitUtil`.  `remoteRefs` is `repo.remote().refs` (`none` when the
name does not resolve, which GitPython surfaces as an exception);
`stagedDiff`/`stagedRenames` are `repo.head.commit.diff()` by change type;
`statusOutput` is the raw text of `repo.git.status('--short', '-u')`; and
`nameOnlyOutput` is the raw text of
`repo.git.diff('--name-only', f'{ref}...{active_branch}')` keyed by `ref`. -/
structure GitRepo where
  remoteRefs : String → Option CommitDiffData
  stagedDiff : Char → Finset String
  stagedRenames : Finset (String × String)
  statusOutput : String
  nameOnlyOutput : String → String

/-- Models `GitUtil.__init__`: use the passed repo if any, otherwise the one
discovered from the current working directory, and re-raise
`InvalidGitRepositoryError` when discovery fails. -/
def gitUtilInit (repoArg : Option GitRepo) (cwdRepo : Option GitRepo) :
    Except GitError GitRepo :=
  match repoArg with
  | some r => .ok r
  | none =>
    match cwdRepo with
    | some r => .ok r
    | none => .error .repositoryUnavailable

/-- Models the reference qualification inside `_get_all_changed_files`:
`prev_ver if prev_ver.startswith('origin/') else f"origin/{prev_ver}"`. -/
def qualifyOrigin (prevVer : String) : String :=
  if pyStartsWith prevVer "origin/" then prevVer else "origin/" ++ prevVer

/-- Models `GitUtil._get_all_changed_files`: the name-only diff against the
`origin/`-qualified reference, split on newlines, each piece wrapped in
`Path(os.path.join(...))`. -/
def getAllChangedFiles (g : GitRepo) (prevVer : String) : Finset String :=
  ((pySplitLines (g.nameOnlyOutput (qualifyOrigin prevVer))).map toPath).toFinset

/-- One iteration of the status-line loop in `_get_untracked_files` for a
single-path requested status (`M`, `A` or `D`): strip the line, compute
`file_status` (`'A'` for lines starting with `?`, otherwise the first
token upper-cased — `IndexError` when the stripped line has no tokens),
and extract the last token when the status matches. -/
def extractFromLine (requested : String) (line : String) :
    Except GitError (Option String) :=
  let l := pyStrip line
  let fileStatus : Except GitError String :=
    if pyStartsWith l "?" then .ok "A"
    else
      match pySplitWs l with
      | [] => .error .indexError
      | t :: _ => .ok (pyUpper t)
  match fileStatus with
  | .error e => .error e
  | .ok st =>
    if st = requested then
      match (pySplitWs l).getLast? with
      | none => .error .indexError
      | some t => .ok (some t)
    else .ok none

/-- One iteration of the status-line loop in `_get_untracked_files` for the
requested status `R`: as `extractFromLine`, but extract the last two tokens
(`line.split()[-2]`, `line.split()[-1]`), raising `IndexError` when fewer
than two tokens are present. -/
def extractRenameFromLine (line : String) :
    Except GitError (Option (String × String)) :=
  let l := pyStrip line
  let fileStatus : Except GitError String :=
    if pyStartsWith l "?" then .ok "A"
    else
      match pySplitWs l with
      | [] => .error .indexError
      | t :: _ => .ok (pyUpper t)
  match fileStatus with
  | .error e => .error e
  | .ok st =>
    if st = "R" then
      match (pySplitWs l).reverse with
      | last :: secondLast :: _ => .ok (some (secondLast, last))
      | _ => .error .indexError
    else .ok none

/-- The status-line loop of `_get_untracked_files` for a single-path status. -/
def collectPaths (requested : String) : List String → Except GitError (List String)
  | [] => .ok []
  | line :: rest =>
    match extractFromLine requested line with
    | .error e => .error e
    | .ok none => collectPaths requested rest
    | .ok (some p) =>
      match collectPaths requested rest with
      | .error e => .error e
      | .ok ps => .ok (p :: ps)

/-- The status-line loop of `_get_untracked_files` for status `R`. -/
def collectRenames : List String → Except GitError (List (String × String))
  | [] => .ok []
  | line :: rest =>
    match extractRenameFromLine line with
    | .error e => .error e
    | .ok none => collectRenames rest
    | .ok (some pr) =>
      match collectRenames rest with
      | .error e => .error e
      | .ok ps => .ok (pr :: ps)

/-- Models `GitUtil._get_untracked_files(requested_status)` for
`requested_status` in `{'M', 'A', 'D'}`: split the status text on newlines,
return the empty set when there are no local changes, otherwise collect the
matching paths (wrapped in `Path`). -/
def getUntrackedFiles (g : GitRepo) (requested : String) :
    Except GitError (Finset String) :=
  let gitStatus := pySplitLines g.statusOutput
  if gitStatus = [""] then .ok ∅
  else
    match collectPaths requested gitStatus with
    | .error e => .error e
    | .ok ps => .ok (ps.map toPath).toFinset

/-- Models `GitUtil._get_untracked_files('R')`, whose extracted elements are
pairs of paths. -/
def getUntrackedRenames (g : GitRepo) :
    Except GitError (Finset (String × String)) :=
  let gitStatus := pySplitLines g.statusOutput
  if gitStatus = [""] then .ok ∅
  else
    match collectRenames gitStatus with
    | .error e => .error e
    | .ok ps => .ok (ps.map (fun pr => (toPath pr.1, toPath pr.2))).toFinset

/-- Models `GitUtil.deleted_files`. -/
def deletedFiles (g : GitRepo) (prevVer : String) (committedOnly stagedOnly : Bool) :
    Except GitError (Finset String) :=
  let pv := stripOrigin prevVer
  match g.remoteRefs pv with
  | none => .error .unknownReference
  | some d =>
    let committed := ((d.byKind 'D').image toPath) ∩ getAllChangedFiles g pv
    if committedOnly then .ok committed
    else
      match getUntrackedFiles g "D" with
      | .error e => .error e
      | .ok untracked =>
        let staged := ((g.stagedDiff 'D').image toPath) ∪ untracked
        if stagedOnly then .ok staged
        else .ok (staged ∪ committed)

/-- Models `GitUtil.renamed_files`. -/
def renamedFiles (g : GitRepo) (prevVer : String) (committedOnly stagedOnly : Bool) :
    Except GitError (Finset (String × String)) :=
  let pv := stripOrigin prevVer
  match deletedFiles g pv committedOnly stagedOnly with
  | .error e => .error e
  | .ok deleted =>
    match g.remoteRefs pv with
    | none => .error .unknownReference
    | some d =>
      let committedAll := d.renames.image (fun pr => (toPath pr.1, toPath pr.2))
      let committed := committedAll.filter
        (fun pr => pr.2 ∈ getAllChangedFiles g pv ∧ pr.2 ∉ deleted)
      if committedOnly then .ok committed
      else
        match getUntrackedRenames g with
        | .error e => .error e
        | .ok untracked =>
          let staged := (g.stagedRenames.image (fun pr => (toPath pr.1, toPath pr.2)))
            ∪ untracked
          if stagedOnly then .ok staged
          else .ok (staged ∪ committed)

/-- Models `GitUtil.modified_files`.  Note that the set subtracted from the
result is the set of first components (`item[0]`, the old paths) of the
pairs returned by `renamed_files`. -/
def modifiedFiles (g : GitRepo) (prevVer : String) (committedOnly stagedOnly : Bool) :
    Except GitError (Finset String) :=
  let pv := stripOrigin prevVer
  match renamedFiles g pv committedOnly stagedOnly with
  | .error e => .error e
  | .ok renamedPairs =>
    let renamed := renamedPairs.image (fun item => item.1)
    match deletedFiles g pv committedOnly stagedOnly with
    | .error e => .error e
    | .ok deleted =>
      match g.remoteRefs pv with
      | none => .error .unknownReference
      | some d =>
        let committed := ((d.byKind 'M').image toPath) ∩ getAllChangedFiles g pv
        if committedOnly then .ok ((committed \ renamed) \ deleted)
        else
          match getUntrackedFiles g "M" with
          | .error e => .error e
          | .ok untracked =>
            let staged := (((g.stagedDiff 'M').image toPath) ∪ untracked)
              \ ((d.byKind 'A').image toPath)
            if stagedOnly then .ok ((staged \ renamed) \ deleted)
            else .ok (((staged ∪ committed) \ renamed) \ deleted)

/-- Models `GitUtil.added_files`. -/
def addedFiles (g : GitRepo) (prevVer : String) (committedOnly stagedOnly : Bool) :
    Except GitError (Finset String) :=
  let pv := stripOrigin prevVer
  match deletedFiles g pv committedOnly stagedOnly with
  | .error e => .error e
  | .ok deleted =>
    match g.remoteRefs pv with
    | none => .error .unknownReference
    | some d =>
      let committed := ((d.byKind 'A').image toPath) ∩ getAllChangedFiles g pv
      if committedOnly then .ok (committed \ deleted)
      else
        match getUntrackedFiles g "A" with
        | .error e => .error e
        | .ok untracked =>
          let stagedBase := ((g.stagedDiff 'A').image toPath) ∪ untracked
          let committedAddedLocallyModified :=
            ((g.stagedDiff 'M').image toPath) ∩ committed
          let staged := stagedBase ∪ committedAddedLocallyModified
          if stagedOnly then .ok (staged \ deleted)
          else .ok ((staged ∪ committed) \ deleted)

/-! ### Properties of the string primitives -/

theorem isPrefixOf_append_self (l t : List Char) : l.isPrefixOf (l ++ t) = true := by
  induction l with
  | nil => simp [List.isPrefixOf]
  | cons a as ih => simp [List.isPrefixOf, ih]

theorem stripOriginCore_fuel (f₁ : Nat) :
    ∀ (l : List Char) (f₂ : Nat), l.length ≤ f₁ → l.length ≤ f₂ →
      stripOriginCore f₁ l = stripOriginCore f₂ l := by
  induction f₁ with
  | zero =>
    intro l f₂ h₁ _
    have hl : l = [] := List.eq_nil_of_length_eq_zero (Nat.le_zero.mp h₁)
    subst hl
    cases f₂ <;> rfl
  | succ f ih =>
    intro l f₂ h₁ h₂
    cases l with
    | nil => cases f₂ <;> rfl
    | cons c cs =>
      cases f₂ with
      | zero => simp at h₂
      | succ f' =>
        rw [stripOriginCore, stripOriginCore]
        have hcs : cs.length ≤ f := by simpa using h₁
        have hcs' : cs.length ≤ f' := by simpa using h₂
        by_cases hp : ("origin/".data).isPrefixOf (c :: cs) = true
        · rw [if_pos hp, if_pos hp]
          exact ih _ _ (le_trans (by rw [List.length_drop]; omega) hcs)
            (le_trans (by rw [List.length_drop]; omega) hcs')
        · rw [if_neg hp, if_neg hp, ih _ _ hcs hcs']

theorem stripOriginCore_cons_run (n : Nat) (l : List Char) :
    stripOriginCore (n + 7) ("origin/".data ++ l) = stripOriginCore (n + 6) l := by
  have hpre : ("origin/".data).isPrefixOf ('o' :: 'r' :: 'i' :: 'g' :: 'i' :: 'n' :: '/' :: l)
      = true := isPrefixOf_append_self "origin/".data l
  show stripOriginCore ((n + 6) + 1) ('o' :: 'r' :: 'i' :: 'g' :: 'i' :: 'n' :: '/' :: l)
      = stripOriginCore (n + 6) l
  rw [stripOriginCore, if_pos hpre]
  rfl

theorem stripOrigin_append (s : String) :
    stripOrigin ("origin/" ++ s) = stripOrigin s := by
  have h7 : ("origin/".data).length = 7 := rfl
  have hdata : ("origin/" ++ s).data = "origin/".data ++ s.data := rfl
  have hlen : ("origin/".data ++ s.data).length = s.data.length + 7 := by
    rw [List.length_append]
    omega
  unfold stripOrigin
  rw [hdata, hlen, stripOriginCore_cons_run]
  exact congrArg _ (stripOriginCore_fuel _ _ _ (by omega) (le_refl _))

theorem qualifyOrigin_qualified (s : String) :
    pyStartsWith (qualifyOrigin s) "origin/" = true := by
  unfold qualifyOrigin
  by_cases h : pyStartsWith s "origin/" = true
  · rw [if_pos h]; exact h
  · rw [if_neg h]
    unfold pyStartsWith
    exact isPrefixOf_append_self "origin/".data s.data

theorem splitSegments_ne_nil (p : Char → Bool) (l : List Char) :
    splitSegments p l ≠ [] := by
  cases l with
  | nil => simp [splitSegments]
  | cons c cs =>
    rw [splitSegments]
    by_cases h : p c = true
    · simp [h]
    · simp only [h]
      cases hr : splitSegments p cs <;> simp

theorem getAllChangedFiles_nonempty (g : GitRepo) (pv : String) :
    (getAllChangedFiles g pv).Nonempty := by
  unfold getAllChangedFiles pySplitLines
  cases hs : splitSegments (fun c => c = '\n') (g.nameOnlyOutput (qualifyOrigin pv)).data with
  | nil => exact absurd hs (splitSegments_ne_nil _ _)
  | cons h t =>
    refine ⟨toPath ⟨h⟩, ?_⟩
    simp

/-! ### Named forms of the intermediate sets of the four operations -/

/-- The branch-relevance-filtered committed contribution for a single-path
change kind: the committed diff of kind `k`, wrapped in `Path`, intersected
with `_get_all_changed_files`. -/
def committedOf (g : GitRepo) (pv : String) (d : CommitDiffData) (k : Char) : Finset String :=
  ((d.byKind k).image toPath) ∩ getAllChangedFiles g pv

/-- The staged contribution for a single-path change kind: the index diff of
kind `k`, wrapped in `Path`, united with the untracked set `u`. -/
def stagedOf (g : GitRepo) (u : Finset String) (k : Char) : Finset String :=
  ((g.stagedDiff k).image toPath) ∪ u

/-- Pairs of a rename diff, each component wrapped in `Path`. -/
def pathPairs (s : Finset (String × String)) : Finset (String × String) :=
  s.image (fun pr => (toPath pr.1, toPath pr.2))

/-- The committed renamed pairs kept by `renamed_files`: target in the
branch-relevance set and not in the deleted set `D`. -/
def committedRenOf (g : GitRepo) (pv : String) (d : CommitDiffData) (D : Finset String) :
    Finset (String × String) :=
  (pathPairs d.renames).filter
    (fun pr => pr.2 ∈ getAllChangedFiles g pv ∧ pr.2 ∉ D)

theorem deletedFiles_ok_inv {g : GitRepo} {r : String} {c s : Bool} {D : Finset String}
    (h : deletedFiles g r c s = .ok D) :
    ∃ d, g.remoteRefs (stripOrigin r) = some d ∧
      ((c = true ∧ D = committedOf g (stripOrigin r) d 'D') ∨
       (c = false ∧ ∃ u, getUntrackedFiles g "D" = .ok u ∧
         ((s = true ∧ D = stagedOf g u 'D') ∨
          (s = false ∧ D = stagedOf g u 'D' ∪ committedOf g (stripOrigin r) d 'D')))) := by
  cases hd : g.remoteRefs (stripOrigin r) with
  | none => simp [deletedFiles, hd] at h
  | some d =>
    refine ⟨d, rfl, ?_⟩
    cases c with
    | true =>
      simp only [deletedFiles, hd] at h
      exact Or.inl ⟨rfl, by simpa [committedOf] using h.symm⟩
    | false =>
      cases hu : getUntrackedFiles g "D" with
      | error e => simp [deletedFiles, hd, hu] at h
      | ok u =>
        refine Or.inr ⟨rfl, u, rfl, ?_⟩
        cases s with
        | true =>
          simp only [deletedFiles, hd, hu] at h
          exact Or.inl ⟨rfl, by simpa [stagedOf] using h.symm⟩
        | false =>
          simp only [deletedFiles, hd, hu] at h
          exact Or.inr ⟨rfl, by simpa [stagedOf, committedOf] using h.symm⟩

theorem renamedFiles_ok_inv {g : GitRepo} {r : String} {c s : Bool}
    {R : Finset (String × String)} (h : renamedFiles g r c s = .ok R) :
    ∃ D d, deletedFiles g (stripOrigin r) c s = .ok D ∧
      g.remoteRefs (stripOrigin r) = some d ∧
      ((c = true ∧ R = committedRenOf g (stripOrigin r) d D) ∨
       (c = false ∧ ∃ u, getUntrackedRenames g = .ok u ∧
         ((s = true ∧ R = pathPairs g.stagedRenames ∪ u) ∨
          (s = false ∧
            R = (pathPairs g.stagedRenames ∪ u) ∪ committedRenOf g (stripOrigin r) d D)))) := by
  cases hD : deletedFiles g (stripOrigin r) c s with
  | error e => simp [renamedFiles, hD] at h
  | ok D =>
    cases hd : g.remoteRefs (stripOrigin r) with
    | none => simp [renamedFiles, hD, hd] at h
    | some d =>
      refine ⟨D, d, rfl, rfl, ?_⟩
      cases c with
      | true =>
        simp only [renamedFiles, hD, hd] at h
        exact Or.inl ⟨rfl, by simpa [committedRenOf, pathPairs] using h.symm⟩
      | false =>
        cases hu : getUntrackedRenames g with
        | error e => simp [renamedFiles, hD, hd, hu] at h
        | ok u =>
          refine Or.inr ⟨rfl, u, rfl, ?_⟩
          cases s with
          | true =>
            simp only [renamedFiles, hD, hd, hu] at h
            exact Or.inl ⟨rfl, by simpa [pathPairs] using h.symm⟩
          | false =>
            simp only [renamedFiles, hD, hd, hu] at h
            exact Or.inr ⟨rfl, by simpa [committedRenOf, pathPairs] using h.symm⟩

theorem modifiedFiles_ok_inv {g : GitRepo} {r : String} {c s : Bool} {M : Finset String}
    (h : modifiedFiles g r c s = .ok M) :
    ∃ R D d, renamedFiles g (stripOrigin r) c s = .ok R ∧
      deletedFiles g (stripOrigin r) c s = .ok D ∧
      g.remoteRefs (stripOrigin r) = some d ∧
      ((c = true ∧
          M = (committedOf g (stripOrigin r) d 'M' \ R.image Prod.fst) \ D) ∨
       (c = false ∧ ∃ u, getUntrackedFiles g "M" = .ok u ∧
         ((s = true ∧
            M = (((stagedOf g u 'M') \ ((d.byKind 'A').image toPath)) \ R.image Prod.fst) \ D) ∨
          (s = false ∧
            M = ((((stagedOf g u 'M') \ ((d.byKind 'A').image toPath))
                  ∪ committedOf g (stripOrigin r) d 'M') \ R.image Prod.fst) \ D)))) := by
  cases hR : renamedFiles g (stripOrigin r) c s with
  | error e => simp [modifiedFiles, hR] at h
  | ok R =>
    cases hD : deletedFiles g (stripOrigin r) c s with
    | error e => simp [modifiedFiles, hR, hD] at h
    | ok D =>
      cases hd : g.remoteRefs (stripOrigin r) with
      | none => simp [modifiedFiles, hR, hD, hd] at h
      | some d =>
        refine ⟨R, D, d, rfl, rfl, rfl, ?_⟩
        cases c with
        | true =>
          simp only [modifiedFiles, hR, hD, hd] at h
          exact Or.inl ⟨rfl, by simpa [committedOf] using h.symm⟩
        | false =>
          cases hu : getUntrackedFiles g "M" with
          | error e => simp [modifiedFiles, hR, hD, hd, hu] at h
          | ok u =>
            refine Or.inr ⟨rfl, u, rfl, ?_⟩
            cases s with
            | true =>
              simp only [modifiedFiles, hR, hD, hd, hu] at h
              exact Or.inl ⟨rfl, by simpa [stagedOf] using h.symm⟩
            | false =>
              simp only [modifiedFiles, hR, hD, hd, hu] at h
              exact Or.inr ⟨rfl, by simpa [stagedOf, committedOf] using h.symm⟩

theorem addedFiles_ok_inv {g : GitRepo} {r : String} {c s : Bool} {A : Finset String}
    (h : addedFiles g r c s = .ok A) :
    ∃ D d, deletedFiles g (stripOrigin r) c s = .ok D ∧
      g.remoteRefs (stripOrigin r) = some d ∧
      ((c = true ∧ A = committedOf g (stripOrigin r) d 'A' \ D) ∨
       (c = false ∧ ∃ u, getUntrackedFiles g "A" = .ok u ∧
         ((s = true ∧
            A = ((stagedOf g u 'A')
              ∪ (((g.stagedDiff 'M').image toPath) ∩ committedOf g (stripOrigin r) d 'A')) \ D) ∨
          (s = false ∧
            A = (((stagedOf g u 'A')
              ∪ (((g.stagedDiff 'M').image toPath) ∩ committedOf g (stripOrigin r) d 'A'))
              ∪ committedOf g (stripOrigin r) d 'A') \ D)))) := by
  cases hD : deletedFiles g (stripOrigin r) c s with
  | error e => simp [addedFiles, hD] at h
  | ok D =>
    cases hd : g.remoteRefs (stripOrigin r) with
    | none => simp [addedFiles, hD, hd] at h
    | some d =>
      refine ⟨D, d, rfl, rfl, ?_⟩
      cases c with
      | true =>
        simp only [addedFiles, hD, hd] at h
        exact Or.inl ⟨rfl, by simpa [committedOf] using h.symm⟩
      | false =>
        cases hu : getUntrackedFiles g "A" with
        | error e => simp [addedFiles, hD, hd, hu] at h
        | ok u =>
          refine Or.inr ⟨rfl, u, rfl, ?_⟩
          cases s with
          | true =>
            simp only [addedFiles, hD, hd, hu] at h
            exact Or.inl ⟨rfl, by simpa [stagedOf, committedOf] using h.symm⟩
          | false =>
            simp only [addedFiles, hD, hd, hu] at h
            exact Or.inr ⟨rfl, by simpa [stagedOf, committedOf] using h.symm⟩

/-! ### Error classification: parsing can only raise `indexError` -/

theorem extractFromLine_error {req line : String} {e : GitError}
    (h : extractFromLine req line = .error e) : e = .indexError := by
  unfold extractFromLine at h
  cases hq : pyStartsWith (pyStrip line) "?" with
  | true =>
    simp only [hq, if_true] at h
    by_cases hreq : ("A" : String) = req
    · rw [if_pos hreq] at h
      cases hg : (pySplitWs (pyStrip line)).getLast? with
      | none =>
        rw [hg] at h
        exact (Except.error.inj h).symm
      | some t => rw [hg] at h; exact Except.noConfusion h
    · rw [if_neg hreq] at h
      exact Except.noConfusion h
  | false =>
    simp only [hq, Bool.false_eq_true, if_false] at h
    cases hw : pySplitWs (pyStrip line) with
    | nil =>
      rw [hw] at h
      exact (Except.error.inj h).symm
    | cons t ts =>
      simp only [hw] at h
      by_cases hreq : pyUpper t = req
      · rw [if_pos hreq] at h
        split at h
        · exact (Except.error.inj h).symm
        · exact Except.noConfusion h
      · rw [if_neg hreq] at h
        exact Except.noConfusion h

theorem extractRenameFromLine_error {line : String} {e : GitError}
    (h : extractRenameFromLine line = .error e) : e = .indexError := by
  unfold extractRenameFromLine at h
  cases hq : pyStartsWith (pyStrip line) "?" with
  | true =>
    simp only [hq, if_true] at h
    by_cases hreq : ("A" : String) = "R"
    · exact absurd hreq (by decide)
    · rw [if_neg hreq] at h
      exact Except.noConfusion h
  | false =>
    simp only [hq, Bool.false_eq_true, if_false] at h
    cases hw : pySplitWs (pyStrip line) with
    | nil =>
      rw [hw] at h
      exact (Except.error.inj h).symm
    | cons t ts =>
      simp only [hw] at h
      by_cases hreq : pyUpper t = "R"
      · rw [if_pos hreq] at h
        split at h
        · exact Except.noConfusion h
        · exact (Except.error.inj h).symm
      · rw [if_neg hreq] at h
        exact Except.noConfusion h

theorem collectPaths_error {req : String} {lines : List String} {e : GitError}
    (h : collectPaths req lines = .error e) : e = .indexError := by
  induction lines with
  | nil => exact Except.noConfusion h
  | cons line rest ih =>
    unfold collectPaths at h
    cases hx : extractFromLine req line with
    | error e' =>
      rw [hx] at h
      exact (Except.error.inj h) ▸ extractFromLine_error hx
    | ok o =>
      rw [hx] at h
      cases o with
      | none => exact ih h
      | some p =>
        cases hr : collectPaths req rest with
        | error e' =>
          rw [hr] at h
          cases Except.error.inj h
          exact ih hr
        | ok ps => rw [hr] at h; exact Except.noConfusion h

theorem collectRenames_error {lines : List String} {e : GitError}
    (h : collectRenames lines = .error e) : e = .indexError := by
  induction lines with
  | nil => exact Except.noConfusion h
  | cons line rest ih =>
    unfold collectRenames at h
    cases hx : extractRenameFromLine line with
    | error e' =>
      rw [hx] at h
      exact (Except.error.inj h) ▸ extractRenameFromLine_error hx
    | ok o =>
      rw [hx] at h
      cases o with
      | none => exact ih h
      | some p =>
        cases hr : collectRenames rest with
        | error e' =>
          rw [hr] at h
          cases Except.error.inj h
          exact ih hr
        | ok ps => rw [hr] at h; exact Except.noConfusion h

theorem getUntrackedFiles_error {g : GitRepo} {req : String} {e : GitError}
    (h : getUntrackedFiles g req = .error e) : e = .indexError := by
  unfold getUntrackedFiles at h
  by_cases hempty : pySplitLines g.statusOutput = [""]
  · rw [if_pos hempty] at h
    exact Except.noConfusion h
  · rw [if_neg hempty] at h
    cases hc : collectPaths req (pySplitLines g.statusOutput) with
    | error e' =>
      rw [hc] at h
      exact (Except.error.inj h) ▸ collectPaths_error hc
    | ok ps => rw [hc] at h; exact Except.noConfusion h

theorem getUntrackedRenames_error {g : GitRepo} {e : GitError}
    (h : getUntrackedRenames g = .error e) : e = .indexError := by
  unfold getUntrackedRenames at h
  by_cases hempty : pySplitLines g.statusOutput = [""]
  · rw [if_pos hempty] at h
    exact Except.noConfusion h
  · rw [if_neg hempty] at h
    cases hc : collectRenames (pySplitLines g.statusOutput) with
    | error e' =>
      rw [hc] at h
      exact (Except.error.inj h) ▸ collectRenames_error hc
    | ok ps => rw [hc] at h; exact Except.noConfusion h

/-! ### Error behaviour of the four operations -/

theorem deletedFiles_none {g : GitRepo} {r : String} {c s : Bool}
    (hd : g.remoteRefs (stripOrigin r) = none) :
    deletedFiles g r c s = .error .unknownReference := by
  simp [deletedFiles, hd]

theorem deletedFiles_error {g : GitRepo} {r : String} {c s : Bool} {e : GitError}
    (h : deletedFiles g r c s = .error e) :
    (e = .unknownReference ∧ g.remoteRefs (stripOrigin r) = none) ∨ e = .indexError := by
  cases hd : g.remoteRefs (stripOrigin r) with
  | none =>
    simp only [deletedFiles, hd] at h
    exact Or.inl ⟨(Except.error.inj h).symm, rfl⟩
  | some d =>
    refine Or.inr ?_
    cases c with
    | true =>
      simp only [deletedFiles, hd] at h
      exact Except.noConfusion h
    | false =>
      cases hu : getUntrackedFiles g "D" with
      | error e' =>
        simp only [deletedFiles, hd, hu] at h
        cases Except.error.inj h
        exact getUntrackedFiles_error hu
      | ok u =>
        cases s with
        | true =>
          simp only [deletedFiles, hd, hu] at h
          exact Except.noConfusion h
        | false =>
          simp only [deletedFiles, hd, hu] at h
          exact Except.noConfusion h

theorem renamedFiles_none {g : GitRepo} {r : String} {c s : Bool}
    (hidem : stripOrigin (stripOrigin r) = stripOrigin r)
    (hd : g.remoteRefs (stripOrigin r) = none) :
    renamedFiles g r c s = .error .unknownReference := by
  have hD : deletedFiles g (stripOrigin r) c s = .error .unknownReference :=
    deletedFiles_none (by rwa [hidem])
  simp [renamedFiles, hD]

theorem renamedFiles_error {g : GitRepo} {r : String} {c s : Bool} {e : GitError}
    (hidem : stripOrigin (stripOrigin r) = stripOrigin r)
    (h : renamedFiles g r c s = .error e) :
    (e = .unknownReference ∧ g.remoteRefs (stripOrigin r) = none) ∨ e = .indexError := by
  cases hD : deletedFiles g (stripOrigin r) c s with
  | error e' =>
    simp only [renamedFiles, hD] at h
    cases Except.error.inj h
    rcases deletedFiles_error hD with ⟨he, hnone⟩ | he
    · exact Or.inl ⟨he, by rwa [hidem] at hnone⟩
    · exact Or.inr he
  | ok D =>
    cases hd : g.remoteRefs (stripOrigin r) with
    | none =>
      simp only [renamedFiles, hD, hd] at h
      exact Or.inl ⟨(Except.error.inj h).symm, rfl⟩
    | some d =>
      refine Or.inr ?_
      cases c with
      | true =>
        simp only [renamedFiles, hD, hd] at h
        exact Except.noConfusion h
      | false =>
        cases hu : getUntrackedRenames g with
        | error e' =>
          simp only [renamedFiles, hD, hd, hu] at h
          cases Except.error.inj h
          exact getUntrackedRenames_error hu
        | ok u =>
          cases s with
          | true =>
            simp only [renamedFiles, hD, hd, hu] at h
            exact Except.noConfusion h
          | false =>
            simp only [renamedFiles, hD, hd, hu] at h
            exact Except.noConfusion h

theorem modifiedFiles_none {g : GitRepo} {r : String} {c s : Bool}
    (hidem : stripOrigin (stripOrigin r) = stripOrigin r)
    (hd : g.remoteRefs (stripOrigin r) = none) :
    modifiedFiles g r c s = .error .unknownReference := by
  have hR : renamedFiles g (stripOrigin r) c s = .error .unknownReference :=
    renamedFiles_none (by rw [hidem, hidem]) (by rwa [hidem])
  simp [modifiedFiles, hR]

theorem modifiedFiles_error {g : GitRepo} {r : String} {c s : Bool} {e : GitError}
    (hidem : stripOrigin (stripOrigin r) = stripOrigin r)
    (h : modifiedFiles g r c s = .error e) :
    (e = .unknownReference ∧ g.remoteRefs (stripOrigin r) = none) ∨ e = .indexError := by
  cases hR : renamedFiles g (stripOrigin r) c s with
  | error e' =>
    simp only [modifiedFiles, hR] at h
    cases Except.error.inj h
    rcases renamedFiles_error (by rw [hidem, hidem]) hR with ⟨he, hnone⟩ | he
    · exact Or.inl ⟨he, by rwa [hidem] at hnone⟩
    · exact Or.inr he
  | ok R =>
    cases hD : deletedFiles g (stripOrigin r) c s with
    | error e' =>
      simp only [modifiedFiles, hR, hD] at h
      cases Except.error.inj h
      rcases deletedFiles_error hD with ⟨he, hnone⟩ | he
      · exact Or.inl ⟨he, by rwa [hidem] at hnone⟩
      · exact Or.inr he
    | ok D =>
      cases hd : g.remoteRefs (stripOrigin r) with
      | none =>
        simp only [modifiedFiles, hR, hD, hd] at h
        exact Or.inl ⟨(Except.error.inj h).symm, rfl⟩
      | some d =>
        refine Or.inr ?_
        cases c with
        | true =>
          simp only [modifiedFiles, hR, hD, hd] at h
          exact Except.noConfusion h
        | false =>
          cases hu : getUntrackedFiles g "M" with
          | error e' =>
            simp only [modifiedFiles, hR, hD, hd, hu] at h
            cases Except.error.inj h
            exact getUntrackedFiles_error hu
          | ok u =>
            cases s with
            | true =>
              simp only [modifiedFiles, hR, hD, hd, hu] at h
              exact Except.noConfusion h
            | false =>
              simp only [modifiedFiles, hR, hD, hd, hu] at h
              exact Except.noConfusion h

theorem addedFiles_none {g : GitRepo} {r : String} {c s : Bool}
    (hidem : stripOrigin (stripOrigin r) = stripOrigin r)
    (hd : g.remoteRefs (stripOrigin r) = none) :
    addedFiles g r c s = .error .unknownReference := by
  have hD : deletedFiles g (stripOrigin r) c s = .error .unknownReference :=
    deletedFiles_none (by rwa [hidem])
  simp [addedFiles, hD]

theorem addedFiles_error {g : GitRepo} {r : String} {c s : Bool} {e : GitError}
    (hidem : stripOrigin (stripOrigin r) = stripOrigin r)
    (h : addedFiles g r c s = .error e) :
    (e = .unknownReference ∧ g.remoteRefs (stripOrigin r) = none) ∨ e = .indexError := by
  cases hD : deletedFiles g (stripOrigin r) c s with
  | error e' =>
    simp only [addedFiles, hD] at h
    cases Except.error.inj h
    rcases deletedFiles_error hD with ⟨he, hnone⟩ | he
    · exact Or.inl ⟨he, by rwa [hidem] at hnone⟩
    · exact Or.inr he
  | ok D =>
    cases hd : g.remoteRefs (stripOrigin r) with
    | none =>
      simp only [addedFiles, hD, hd] at h
      exact Or.inl ⟨(Except.error.inj h).symm, rfl⟩
    | some d =>
      refine Or.inr ?_
      cases c with
      | true =>
        simp only [addedFiles, hD, hd] at h
        exact Except.noConfusion h
      | false =>
        cases hu : getUntrackedFiles g "A" with
        | error e' =>
          simp only [addedFiles, hD, hd, hu] at h
          cases Except.error.inj h
          exact getUntrackedFiles_error hu
        | ok u =>
          cases s with
          | true =>
            simp only [addedFiles, hD, hd, hu] at h
            exact Except.noConfusion h
          | false =>
            simp only [addedFiles, hD, hd, hu] at h
            exact Except.noConfusion h

/-! ### Empty repository state yields empty result sets -/

theorem getUntrackedFiles_empty {g : GitRepo} (h : g.statusOutput = "") (req : String) :
    getUntrackedFiles g req = .ok ∅ := by
  unfold getUntrackedFiles
  rw [h]
  rfl

theorem getUntrackedRenames_empty {g : GitRepo} (h : g.statusOutput = "") :
    getUntrackedRenames g = .ok ∅ := by
  unfold getUntrackedRenames
  rw [h]
  rfl

theorem deletedFiles_emptyState {g : GitRepo} {r : String} {c s : Bool} {d : CommitDiffData}
    (hres : g.remoteRefs (stripOrigin r) = some d)
    (hk : ∀ k, d.byKind k = ∅) (hstag : ∀ k, g.stagedDiff k = ∅)
    (hstatus : g.statusOutput = "") :
    deletedFiles g r c s = .ok ∅ := by
  cases c <;> cases s <;>
    simp [deletedFiles, hres, hk, hstag, getUntrackedFiles_empty hstatus]

theorem renamedFiles_emptyState {g : GitRepo} {r : String} {c s : Bool} {d : CommitDiffData}
    (hidem : stripOrigin (stripOrigin r) = stripOrigin r)
    (hres : g.remoteRefs (stripOrigin r) = some d)
    (hk : ∀ k, d.byKind k = ∅) (hren : d.renames = ∅)
    (hstag : ∀ k, g.stagedDiff k = ∅) (hsr : g.stagedRenames = ∅)
    (hstatus : g.statusOutput = "") :
    renamedFiles g r c s = .ok ∅ := by
  have hD : deletedFiles g (stripOrigin r) c s = .ok ∅ :=
    deletedFiles_emptyState (by rwa [hidem]) hk hstag hstatus
  cases c <;> cases s <;>
    simp [renamedFiles, hD, hres, hren, hsr, getUntrackedRenames_empty hstatus]

theorem modifiedFiles_emptyState {g : GitRepo} {r : String} {c s : Bool} {d : CommitDiffData}
    (hidem : stripOrigin (stripOrigin r) = stripOrigin r)
    (hres : g.remoteRefs (stripOrigin r) = some d)
    (hk : ∀ k, d.byKind k = ∅) (hren : d.renames = ∅)
    (hstag : ∀ k, g.stagedDiff k = ∅) (hsr : g.stagedRenames = ∅)
    (hstatus : g.statusOutput = "") :
    modifiedFiles g r c s = .ok ∅ := by
  have hD : deletedFiles g (stripOrigin r) c s = .ok ∅ :=
    deletedFiles_emptyState (by rwa [hidem]) hk hstag hstatus
  have hR : renamedFiles g (stripOrigin r) c s = .ok ∅ :=
    renamedFiles_emptyState (by rw [hidem, hidem]) (by rwa [hidem]) hk hren hstag hsr hstatus
  cases c <;> cases s <;>
    simp [modifiedFiles, hR, hD, hres, hk, hstag, getUntrackedFiles_empty hstatus]

theorem addedFiles_emptyState {g : GitRepo} {r : String} {c s : Bool} {d : CommitDiffData}
    (hidem : stripOrigin (stripOrigin r) = stripOrigin r)
    (hres : g.remoteRefs (stripOrigin r) = some d)
    (hk : ∀ k, d.byKind k = ∅) (hstag : ∀ k, g.stagedDiff k = ∅)
    (hstatus : g.statusOutput = "") :
    addedFiles g r c s = .ok ∅ := by
  have hD : deletedFiles g (stripOrigin r) c s = .ok ∅ :=
    deletedFiles_emptyState (by rwa [hidem]) hk hstag hstatus
  cases c <;> cases s <;>
    simp [addedFiles, hD, hres, hk, hstag, getUntrackedFiles_empty hstatus]

/-! ### The operations depend on the reference only through `stripOrigin` -/

theorem deletedFiles_origin_equiv (g : GitRepo) (n : String) (c s : Bool) :
    deletedFiles g ("origin/" ++ n) c s = deletedFiles g n c s := by
  unfold deletedFiles
  rw [stripOrigin_append]

theorem renamedFiles_origin_equiv (g : GitRepo) (n : String) (c s : Bool) :
    renamedFiles g ("origin/" ++ n) c s = renamedFiles g n c s := by
  unfold renamedFiles
  rw [stripOrigin_append]

theorem modifiedFiles_origin_equiv (g : GitRepo) (n : String) (c s : Bool) :
    modifiedFiles g ("origin/" ++ n) c s = modifiedFiles g n c s := by
  unfold modifiedFiles
  rw [stripOrigin_append]

theorem addedFiles_origin_equiv (g : GitRepo) (n : String) (c s : Bool) :
    addedFiles g ("origin/" ++ n) c s = addedFiles g n c s := by
  unfold addedFiles
  rw [stripOrigin_append]

/-! ### Concrete repository states used as counterexamples and witnesses -/

/-- A committed diff consisting of a single rename from `x` to `y`. -/
def dRen : CommitDiffData := ⟨fun _ => ∅, {("x", "y")}⟩

/-- A repository where `x` was renamed to `y` in a commit on the branch and
`y` was subsequently modified in the index: the open-question scenario of a
rename target that is edited again locally. -/
def gRen : GitRepo :=
  ⟨fun _ => some dRen, fun k => if k = 'M' then {"y"} else ∅, ∅, "", fun _ => "x\ny"⟩

/-- A committed diff consisting of a single added file `x`. -/
def dAdd : CommitDiffData := ⟨fun k => if k = 'A' then {"x"} else ∅, ∅⟩

/-- A repository where `x` was added in a commit on the branch and then
deleted in the index. -/
def gAddDel : GitRepo :=
  ⟨fun _ => some dAdd, fun k => if k = 'D' then {"x"} else ∅, ∅, "", fun _ => "x"⟩

/-- A committed diff consisting of a single added file `p`. -/
def dAddP : CommitDiffData := ⟨fun k => if k = 'A' then {"p"} else ∅, ∅⟩

/-- A repository where `p` is Added in the committed diff but absent from the
name-only diff (reference drift), and `p` is Modified in the index. -/
def gAddIrrel : GitRepo :=
  ⟨fun _ => some dAddP, fun k => if k = 'M' then {"p"} else ∅, ∅, "", fun _ => "q"⟩

/-- A repository where `p` is Added in the committed diff, present in the
name-only diff, and Modified in the index. -/
def gAddRel : GitRepo :=
  ⟨fun _ => some dAddP, fun k => if k = 'M' then {"p"} else ∅, ∅, "", fun _ => "p"⟩

/-- A committed diff consisting of a single deleted file `y`. -/
def dDelY : CommitDiffData := ⟨fun k => if k = 'D' then {"y"} else ∅, ∅⟩

/-- A repository where `y` was deleted in a commit on the branch and a staged
rename `x → y` re-creates the name in the index. -/
def gDelRen : GitRepo :=
  ⟨fun _ => some dDelY, fun _ => ∅, {("x", "y")}, "", fun _ => "y"⟩

/-- An empty committed diff. -/
def dEmpty : CommitDiffData := ⟨fun _ => ∅, ∅⟩

/-- A repository with a resolvable reference whose status output consists of
a single newline, i.e. two empty status lines. -/
def gBadStatus : GitRepo := ⟨fun _ => some dEmpty, fun _ => ∅, ∅, "\n", fun _ => ""⟩

/-- A repository with no changes at all. -/
def gEmpty : GitRepo := ⟨fun _ => some dEmpty, fun _ => ∅, ∅, "", fun _ => ""⟩

/-! ### Claim theorems -/

theorem finset_disj_absurd {X Y : Finset String} (h : X ∩ Y = ∅) {p : String}
    (hx : p ∈ X) (hy : p ∈ Y) : False :=
  Finset.not_mem_empty p (h ▸ Finset.mem_inter.mpr ⟨hx, hy⟩)

/-- C9: when the name-only diff between the qualified reference and the
branch tip produces empty text output, `_get_all_changed_files` returns the
singleton set containing the path `.`, not the empty set; consequently the
branch-relevance filter set is never empty for any reference. -/
theorem c9_empty_name_only_diff_dot :
    (∀ (g : GitRepo) (pv : String), g.nameOnlyOutput (qualifyOrigin pv) = "" →
      getAllChangedFiles g pv = {"."}) ∧
    (∀ (g : GitRepo) (pv : String), (getAllChangedFiles g pv).Nonempty) := by
  constructor
  · intro g pv h
    unfold getAllChangedFiles
    rw [h]
    rfl
  · exact getAllChangedFiles_nonempty

/-- Witness for C9: a concrete repository whose name-only diff output is the
empty string, on which `_get_all_changed_files` indeed returns `{.}`. -/
theorem c9_empty_name_only_diff_dot_witness :
    gEmpty.nameOnlyOutput (qualifyOrigin "master") = "" ∧
    getAllChangedFiles gEmpty "master" = {"."} :=
  ⟨rfl, c9_empty_name_only_diff_dot.1 gEmpty "master" rfl⟩

/-- C7: for every branch name `n`, every operation and every flag
combination, calling the operation with reference `origin/` ++ `n` yields
exactly the same result as calling it with reference `n`; and the
name-only-diff query used for the branch-relevance filter is always issued
against an `origin/`-qualified reference. -/
theorem c7_reference_normalization_equiv :
    (∀ (g : GitRepo) (n : String) (c s : Bool),
      modifiedFiles g ("origin/" ++ n) c s = modifiedFiles g n c s ∧
      addedFiles g ("origin/" ++ n) c s = addedFiles g n c s ∧
      deletedFiles g ("origin/" ++ n) c s = deletedFiles g n c s ∧
      renamedFiles g ("origin/" ++ n) c s = renamedFiles g n c s) ∧
    (∀ p : String, pyStartsWith (qualifyOrigin p) "origin/" = true) :=
  ⟨fun g n c s =>
    ⟨modifiedFiles_origin_equiv g n c s, addedFiles_origin_equiv g n c s,
     deletedFiles_origin_equiv g n c s, renamedFiles_origin_equiv g n c s⟩,
   qualifyOrigin_qualified⟩

/-- Counterexample to C1 as stated: in `gRen`, the pair `(x, y)` is returned
by `renamed_files`, yet its target `y` is an element of the `modified_files`
result for the same arguments, so a renamed target is not excluded from
Modified. -/
theorem c1_counterexample :
    renamedFiles gRen "master" false false = .ok {("x", "y")} ∧
    modifiedFiles gRen "master" false false = .ok {"y"} ∧
    (("x", "y") : String × String).2 ∈ ({"y"} : Finset String) :=
  ⟨rfl, rfl, by decide⟩

/-- C1 amended: `modified_files` excludes the source (old) paths of the
pairs returned by `renamed_files` for the same flags; no rename-based
exclusion is applied to targets, nor by `added_files` or `deleted_files`. -/
theorem c1_amended_rename_source_excluded_from_modified :
    ∀ (g : GitRepo) (ref : String) (c s : Bool)
      (R : Finset (String × String)) (M : Finset String),
      renamedFiles g (stripOrigin ref) c s = .ok R →
      modifiedFiles g ref c s = .ok M →
      ∀ pr ∈ R, pr.1 ∉ M := by
  intro g ref c s R M hR hM pr hpr
  obtain ⟨R', D, d, hR', _, _, hbr⟩ := modifiedFiles_ok_inv hM
  rw [hR] at hR'
  cases Except.ok.inj hR'
  have hfst : pr.1 ∈ R.image Prod.fst := Finset.mem_image_of_mem Prod.fst hpr
  rcases hbr with ⟨_, hMeq⟩ | ⟨_, u, _, ⟨_, hMeq⟩ | ⟨_, hMeq⟩⟩ <;>
    · subst hMeq
      intro hin
      rw [Finset.mem_sdiff, Finset.mem_sdiff] at hin
      exact hin.1.2 hfst

/-- Witness for the amended C1: in `gRen` the pair `(x, y)` is renamed and
its source `x` is not in the `modified_files` result. -/
theorem c1_amended_witness :
    renamedFiles gRen (stripOrigin "master") false false = .ok {("x", "y")} ∧
    modifiedFiles gRen "master" false false = .ok {"y"} ∧
    (("x", "y") : String × String).1 ∉ ({"y"} : Finset String) :=
  ⟨rfl, rfl,
    c1_amended_rename_source_excluded_from_modified gRen "master" false false
      {("x", "y")} {"y"} rfl rfl ("x", "y") (by decide)⟩

/-- Counterexample to C2 as stated: in `gAddDel`, `added_files` with
`committed_only` contains `x`, but the unrestricted result is empty, so the
committed-only result is not a subset of the unrestricted result and the
union law fails. -/
theorem c2_counterexample :
    addedFiles gAddDel "master" true false = .ok {"x"} ∧
    addedFiles gAddDel "master" false true = .ok (∅ : Finset String) ∧
    addedFiles gAddDel "master" false false = .ok (∅ : Finset String) ∧
    "x" ∉ (∅ : Finset String) :=
  ⟨rfl, rfl, rfl, by decide⟩

/-- C2 amended: the subset-and-union law holds for `deleted_files` (the only
operation that applies no cross-mode exclusion set): the unrestricted result
is the union of the committed-only and staged-only results, and each is a
subset of it. -/
theorem c2_amended_deleted_union_law :
    ∀ (g : GitRepo) (ref : String) (Dc Ds Du : Finset String),
      deletedFiles g ref true false = .ok Dc →
      deletedFiles g ref false true = .ok Ds →
      deletedFiles g ref false false = .ok Du →
      Du = Dc ∪ Ds ∧ Dc ⊆ Du ∧ Ds ⊆ Du := by
  intro g ref Dc Ds Du hC hS hU
  obtain ⟨d, hd, hbrC⟩ := deletedFiles_ok_inv hC
  obtain ⟨d', hd', hbrS⟩ := deletedFiles_ok_inv hS
  obtain ⟨d'', hd'', hbrU⟩ := deletedFiles_ok_inv hU
  rw [hd] at hd' hd''
  cases Option.some.inj hd'
  cases Option.some.inj hd''
  rcases hbrC with ⟨_, hCeq⟩ | ⟨hfalse, _⟩
  · rcases hbrS with ⟨hfalse, _⟩ | ⟨_, u, hu, hbrS⟩
    · exact Bool.noConfusion hfalse
    · rcases hbrS with ⟨_, hSeq⟩ | ⟨hfalse, _⟩
      · rcases hbrU with ⟨hfalse, _⟩ | ⟨_, u', hu', hbrU⟩
        · exact Bool.noConfusion hfalse
        · rcases hbrU with ⟨hfalse, _⟩ | ⟨_, hUeq⟩
          · exact Bool.noConfusion hfalse
          · rw [hu] at hu'
            cases Except.ok.inj hu'
            subst hCeq hSeq hUeq
            refine ⟨Finset.union_comm _ _, ?_, ?_⟩
            · exact Finset.subset_union_right
            · exact Finset.subset_union_left
      · exact Bool.noConfusion hfalse
  · exact Bool.noConfusion hfalse

/-- Witness for the amended C2 on `gAddDel`: the unrestricted deleted set is
the union of the committed-only and staged-only deleted sets. -/
theorem c2_amended_witness :
    deletedFiles gAddDel "master" true false = .ok (∅ : Finset String) ∧
    deletedFiles gAddDel "master" false true = .ok {"x"} ∧
    deletedFiles gAddDel "master" false false = .ok {"x"} ∧
    (({"x"} : Finset String) = ∅ ∪ {"x"} ∧ (∅ : Finset String) ⊆ {"x"} ∧
      ({"x"} : Finset String) ⊆ {"x"}) :=
  ⟨rfl, rfl, rfl,
    c2_amended_deleted_union_law gAddDel "master" ∅ {"x"} {"x"} rfl rfl rfl⟩

/-- Counterexample to C4 as stated: in `gDelRen`, `y` is in the
`deleted_files` result and is also the target of the staged pair `(x, y)`
returned by `renamed_files` for the same arguments. -/
theorem c4_counterexample :
    deletedFiles gDelRen "master" false false = .ok {"y"} ∧
    renamedFiles gDelRen "master" false false = .ok {("x", "y")} ∧
    (("x", "y") : String × String).2 ∈ ({"y"} : Finset String) :=
  ⟨rfl, rfl, by decide⟩

/-- C4 amended: a path in the `deleted_files` result is excluded from
`modified_files` in every mode, and from the targets of renamed pairs in
`committed_only` mode (only committed pairs are filtered against the
deleted set; staged pairs are not). -/
theorem c4_amended_delete_precedence :
    ∀ (g : GitRepo) (ref : String) (c s : Bool),
      (∀ D M, deletedFiles g (stripOrigin ref) c s = .ok D →
        modifiedFiles g ref c s = .ok M → ∀ p ∈ D, p ∉ M) ∧
      (∀ D R, deletedFiles g (stripOrigin ref) true s = .ok D →
        renamedFiles g ref true s = .ok R → ∀ pr ∈ R, pr.2 ∉ D) := by
  intro g ref c s
  constructor
  · intro D M hD hM p hp
    obtain ⟨R', D', d, _, hD', _, hbr⟩ := modifiedFiles_ok_inv hM
    rw [hD] at hD'
    cases Except.ok.inj hD'
    rcases hbr with ⟨_, hMeq⟩ | ⟨_, u, _, ⟨_, hMeq⟩ | ⟨_, hMeq⟩⟩ <;>
      · subst hMeq
        intro hin
        rw [Finset.mem_sdiff] at hin
        exact hin.2 hp
  · intro D R hD hR pr hpr
    obtain ⟨D', d, hD', _, hbr⟩ := renamedFiles_ok_inv hR
    rw [hD] at hD'
    cases Except.ok.inj hD'
    rcases hbr with ⟨_, hReq⟩ | ⟨hfalse, _⟩
    · subst hReq
      rw [committedRenOf, Finset.mem_filter] at hpr
      exact hpr.2.2
    · exact Bool.noConfusion hfalse

/-- Witness for the amended C4 on `gDelRen`: `y` is deleted and absent from
the (empty) modified result. -/
theorem c4_amended_witness :
    deletedFiles gDelRen (stripOrigin "master") false false = .ok {"y"} ∧
    modifiedFiles gDelRen "master" false false = .ok (∅ : Finset String) ∧
    "y" ∉ (∅ : Finset String) :=
  ⟨rfl, rfl,
    (c4_amended_delete_precedence gDelRen "master" false false).1 {"y"} ∅ rfl rfl
      "y" (by decide)⟩

/-- C6: the branch-relevance filter: in `committed_only` mode every element
of each operation's result lies in the set of all paths touched between the
reference and the branch tip (`_get_all_changed_files`), and `renamed_files`
keeps a committed pair only when its target is in that set and not in the
deleted set. -/
theorem c6_branch_relevance_filter :
    ∀ (g : GitRepo) (ref : String) (st : Bool),
      (∀ M, modifiedFiles g ref true st = .ok M →
        M ⊆ getAllChangedFiles g (stripOrigin ref)) ∧
      (∀ A, addedFiles g ref true st = .ok A →
        A ⊆ getAllChangedFiles g (stripOrigin ref)) ∧
      (∀ D, deletedFiles g ref true st = .ok D →
        D ⊆ getAllChangedFiles g (stripOrigin ref)) ∧
      (∀ R D, renamedFiles g ref true st = .ok R →
        deletedFiles g (stripOrigin ref) true st = .ok D →
        ∀ pr ∈ R, pr.2 ∈ getAllChangedFiles g (stripOrigin ref) ∧ pr.2 ∉ D) := by
  intro g ref st
  refine ⟨?_, ?_, ?_, ?_⟩
  · intro M hM
    obtain ⟨R, D, d, _, _, _, hbr⟩ := modifiedFiles_ok_inv hM
    rcases hbr with ⟨_, hMeq⟩ | ⟨hfalse, _⟩
    · subst hMeq
      intro p hp
      rw [Finset.mem_sdiff] at hp
      have hp1 := hp.1
      rw [Finset.mem_sdiff, committedOf, Finset.mem_inter] at hp1
      exact hp1.1.2
    · exact Bool.noConfusion hfalse
  · intro A hA
    obtain ⟨D, d, _, _, hbr⟩ := addedFiles_ok_inv hA
    rcases hbr with ⟨_, hAeq⟩ | ⟨hfalse, _⟩
    · subst hAeq
      intro p hp
      rw [Finset.mem_sdiff, committedOf, Finset.mem_inter] at hp
      exact hp.1.2
    · exact Bool.noConfusion hfalse
  · intro D hD
    obtain ⟨d, _, hbr⟩ := deletedFiles_ok_inv hD
    rcases hbr with ⟨_, hDeq⟩ | ⟨hfalse, _⟩
    · subst hDeq
      intro p hp
      rw [committedOf, Finset.mem_inter] at hp
      exact hp.2
    · exact Bool.noConfusion hfalse
  · intro R D hR hD pr hpr
    obtain ⟨D', d, hD', _, hbr⟩ := renamedFiles_ok_inv hR
    rw [hD] at hD'
    cases Except.ok.inj hD'
    rcases hbr with ⟨_, hReq⟩ | ⟨hfalse, _⟩
    · subst hReq
      rw [committedRenOf, Finset.mem_filter] at hpr
      exact hpr.2
    · exact Bool.noConfusion hfalse

/-- Witness for C6: on `gRen` in `committed_only` mode, the modified result
is empty and hence inside the branch-relevance set, and the kept committed
pair `(x, y)` has its target in the branch-relevance set and outside the
deleted set. -/
theorem c6_branch_relevance_filter_witness :
    modifiedFiles gRen "master" true false = .ok (∅ : Finset String) ∧
    (∅ : Finset String) ⊆ getAllChangedFiles gRen (stripOrigin "master") ∧
    renamedFiles gRen "master" true false = .ok {("x", "y")} ∧
    deletedFiles gRen (stripOrigin "master") true false = .ok (∅ : Finset String) ∧
    (("x", "y") : String × String).2 ∈ getAllChangedFiles gRen (stripOrigin "master") ∧
    (("x", "y") : String × String).2 ∉ (∅ : Finset String) := by
  refine ⟨rfl, (c6_branch_relevance_filter gRen "master" false).1 ∅ rfl, rfl, rfl, ?_, ?_⟩
  · exact ((c6_branch_relevance_filter gRen "master" false).2.2.2 {("x", "y")} ∅ rfl rfl
      ("x", "y") (by decide)).1
  · exact ((c6_branch_relevance_filter gRen "master" false).2.2.2 {("x", "y")} ∅ rfl rfl
      ("x", "y") (by decide)).2

/-- Counterexample to C3 as stated: in `gAddIrrel`, `p` is Added in the
committed diff and Modified in the index diff, yet the unrestricted and
staged-only `added_files` results are both empty because `p` is outside the
branch-relevance set. -/
theorem c3_counterexample :
    "p" ∈ ((dAddP.byKind 'A').image toPath) ∧
    "p" ∈ ((gAddIrrel.stagedDiff 'M').image toPath) ∧
    addedFiles gAddIrrel "master" false false = .ok (∅ : Finset String) ∧
    addedFiles gAddIrrel "master" false true = .ok (∅ : Finset String) :=
  ⟨by decide, by decide, rfl, rfl⟩

/-- C3 amended: a path Added in the committed diff and Modified in the index
diff reports as Added and not as Modified in the unrestricted and
staged-only modes, provided it lies in the branch-relevance set, is not of
kind Modified in the committed diff, and is not in the deleted result. -/
theorem c3_amended_added_then_modified :
    ∀ (g : GitRepo) (ref : String) (st : Bool) (d : CommitDiffData)
      (A M D : Finset String) (p : String),
      g.remoteRefs (stripOrigin ref) = some d →
      addedFiles g ref false st = .ok A →
      modifiedFiles g ref false st = .ok M →
      deletedFiles g (stripOrigin ref) false st = .ok D →
      p ∈ (d.byKind 'A').image toPath →
      p ∈ (g.stagedDiff 'M').image toPath →
      p ∈ getAllChangedFiles g (stripOrigin ref) →
      p ∉ (d.byKind 'M').image toPath →
      p ∉ D →
      p ∈ A ∧ p ∉ M := by
  intro g ref st d A M D p hres hA hM hD hpA hpSm hpAll hpCm hpD
  have hpC : p ∈ committedOf g (stripOrigin ref) d 'A' := by
    rw [committedOf]
    exact Finset.mem_inter.mpr ⟨hpA, hpAll⟩
  constructor
  · obtain ⟨D₁, d₁, hD₁, hd₁, hbr⟩ := addedFiles_ok_inv hA
    rw [hres] at hd₁
    cases Option.some.inj hd₁
    rw [hD] at hD₁
    cases Except.ok.inj hD₁
    rcases hbr with ⟨hfalse, _⟩ | ⟨_, u, _, ⟨_, hAeq⟩ | ⟨_, hAeq⟩⟩
    · exact Bool.noConfusion hfalse
    · subst hAeq
      exact Finset.mem_sdiff.mpr
        ⟨Finset.mem_union_right _ (Finset.mem_inter.mpr ⟨hpSm, hpC⟩), hpD⟩
    · subst hAeq
      exact Finset.mem_sdiff.mpr
        ⟨Finset.mem_union_left _
          (Finset.mem_union_right _ (Finset.mem_inter.mpr ⟨hpSm, hpC⟩)), hpD⟩
  · obtain ⟨R, D₂, d₂, _, hD₂, hd₂, hbr⟩ := modifiedFiles_ok_inv hM
    rw [hres] at hd₂
    cases Option.some.inj hd₂
    rcases hbr with ⟨hfalse, _⟩ | ⟨_, u, _, ⟨_, hMeq⟩ | ⟨_, hMeq⟩⟩
    · exact Bool.noConfusion hfalse
    · subst hMeq
      intro hin
      rw [Finset.mem_sdiff, Finset.mem_sdiff, Finset.mem_sdiff] at hin
      exact hin.1.1.2 hpA
    · subst hMeq
      intro hin
      rw [Finset.mem_sdiff, Finset.mem_sdiff] at hin
      rcases Finset.mem_union.mp hin.1.1 with hst | hcm
      · exact (Finset.mem_sdiff.mp hst).2 hpA
      · rw [committedOf, Finset.mem_inter] at hcm
        exact hpCm hcm.1

/-- Witness for the amended C3 on `gAddRel`: `p` is committed-Added, in the
branch-relevance set and index-Modified; it reports as Added and not as
Modified in the unrestricted mode. -/
theorem c3_amended_witness :
    addedFiles gAddRel "master" false false = .ok {"p"} ∧
    modifiedFiles gAddRel "master" false false = .ok (∅ : Finset String) ∧
    "p" ∈ ({"p"} : Finset String) ∧ "p" ∉ (∅ : Finset String) := by
  have h := c3_amended_added_then_modified gAddRel "master" false dAddP {"p"} ∅ ∅ "p"
    rfl rfl rfl rfl (by decide) (by decide) (by decide) (by decide) (by decide)
  exact ⟨rfl, rfl, h.1, h.2⟩

/-- C10: a path Added in the committed diff but outside the branch-relevance
set, and Modified in the index diff, is in neither the `added_files` nor the
`modified_files` result in any flag mode: `modified_files` subtracts the
unfiltered committed-Added set from its staged set while `added_files`
augments its staged set only from the relevance-filtered committed-Added
set.  (The side conditions `p ∉ staged-Added` and `p ∉ untracked-Added`
record that a single diff assigns one status per path.) -/
theorem c10_irrelevant_added_locally_modified :
    ∀ (g : GitRepo) (ref : String) (c s : Bool) (d : CommitDiffData)
      (uA : Finset String) (A M : Finset String) (p : String),
      g.remoteRefs (stripOrigin ref) = some d →
      getUntrackedFiles g "A" = .ok uA →
      addedFiles g ref c s = .ok A →
      modifiedFiles g ref c s = .ok M →
      p ∈ (d.byKind 'A').image toPath →
      p ∈ (g.stagedDiff 'M').image toPath →
      p ∉ getAllChangedFiles g (stripOrigin ref) →
      p ∉ (g.stagedDiff 'A').image toPath →
      p ∉ uA →
      p ∉ A ∧ p ∉ M := by
  intro g ref c s d uA A M p hres huA hA hM hpA hpSm hpAll hpSa hpuA
  have hpC : ∀ k, p ∉ committedOf g (stripOrigin ref) d k := by
    intro k hin
    rw [committedOf, Finset.mem_inter] at hin
    exact hpAll hin.2
  constructor
  · obtain ⟨D₁, d₁, hD₁, hd₁, hbr⟩ := addedFiles_ok_inv hA
    rw [hres] at hd₁
    cases Option.some.inj hd₁
    rcases hbr with ⟨_, hAeq⟩ | ⟨_, u, hu, ⟨_, hAeq⟩ | ⟨_, hAeq⟩⟩
    · subst hAeq
      intro hin
      exact hpC 'A' (Finset.mem_sdiff.mp hin).1
    · rw [huA] at hu
      cases Except.ok.inj hu
      subst hAeq
      intro hin
      rcases Finset.mem_union.mp (Finset.mem_sdiff.mp hin).1 with hst | hom
      · rcases Finset.mem_union.mp hst with hsa | hua
        · exact hpSa hsa
        · exact hpuA hua
      · exact hpC 'A' (Finset.mem_inter.mp hom).2
    · rw [huA] at hu
      cases Except.ok.inj hu
      subst hAeq
      intro hin
      rcases Finset.mem_union.mp (Finset.mem_sdiff.mp hin).1 with hst | hcc
      · rcases Finset.mem_union.mp hst with hst' | hom
        · rcases Finset.mem_union.mp hst' with hsa | hua
          · exact hpSa hsa
          · exact hpuA hua
        · exact hpC 'A' (Finset.mem_inter.mp hom).2
      · exact hpC 'A' hcc
  · obtain ⟨R, D₂, d₂, _, hD₂, hd₂, hbr⟩ := modifiedFiles_ok_inv hM
    rw [hres] at hd₂
    cases Option.some.inj hd₂
    rcases hbr with ⟨_, hMeq⟩ | ⟨_, u, hu, ⟨_, hMeq⟩ | ⟨_, hMeq⟩⟩
    · subst hMeq
      intro hin
      exact hpC 'M' (Finset.mem_sdiff.mp (Finset.mem_sdiff.mp hin).1).1
    · subst hMeq
      intro hin
      exact (Finset.mem_sdiff.mp (Finset.mem_sdiff.mp (Finset.mem_sdiff.mp hin).1).1).2 hpA
    · subst hMeq
      intro hin
      rcases Finset.mem_union.mp (Finset.mem_sdiff.mp (Finset.mem_sdiff.mp hin).1).1 with
        hst | hcm
      · exact (Finset.mem_sdiff.mp hst).2 hpA
      · exact hpC 'M' hcm

/-- Witness for C10 on `gAddIrrel`: `p` is committed-Added outside the
branch-relevance set and index-Modified, and appears in neither result. -/
theorem c10_irrelevant_added_locally_modified_witness :
    addedFiles gAddIrrel "master" false false = .ok (∅ : Finset String) ∧
    modifiedFiles gAddIrrel "master" false false = .ok (∅ : Finset String) ∧
    "p" ∉ (∅ : Finset String) ∧ "p" ∉ (∅ : Finset String) := by
  have h := c10_irrelevant_added_locally_modified gAddIrrel "master" false false dAddP
    ∅ ∅ ∅ "p" rfl rfl rfl rfl (by decide) (by decide) (by decide) (by decide) (by decide)
  exact ⟨rfl, rfl, h.1, h.2⟩

/-- Core of the amended C5: under per-diff and cross-stage status
uniqueness, no path is in both the (maximal) added contribution and the
(maximal) modified contribution. -/
theorem added_modified_core_disjoint (g : GitRepo) (pv : String) (d : CommitDiffData)
    (uA uM : Finset String)
    (h1 : ((g.stagedDiff 'A').image toPath) ∩ ((g.stagedDiff 'M').image toPath) = ∅)
    (h2 : ((g.stagedDiff 'A').image toPath) ∩ uM = ∅)
    (h3 : uA ∩ ((g.stagedDiff 'M').image toPath) = ∅)
    (h4 : uA ∩ uM = ∅)
    (h5 : ((g.stagedDiff 'A').image toPath) ∩ ((d.byKind 'M').image toPath) = ∅)
    (h6 : uA ∩ ((d.byKind 'M').image toPath) = ∅)
    (h7 : ((d.byKind 'A').image toPath) ∩ ((d.byKind 'M').image toPath) = ∅) :
    ∀ p, p ∈ (stagedOf g uA 'A'
            ∪ (((g.stagedDiff 'M').image toPath) ∩ committedOf g pv d 'A'))
            ∪ committedOf g pv d 'A' →
      p ∈ ((stagedOf g uM 'M') \ ((d.byKind 'A').image toPath))
            ∪ committedOf g pv d 'M' → False := by
  intro p hpA hpM
  simp only [stagedOf, committedOf] at hpA hpM
  rcases Finset.mem_union.mp hpM with hstM | hcmM
  · have hnCa := (Finset.mem_sdiff.mp hstM).2
    have hSmUm := (Finset.mem_sdiff.mp hstM).1
    rcases Finset.mem_union.mp hpA with hsa | hcc
    · rcases Finset.mem_union.mp hsa with hstA | hom
      · rcases Finset.mem_union.mp hstA with hSa | huA
        · rcases Finset.mem_union.mp hSmUm with hSm | huM
          · exact finset_disj_absurd h1 hSa hSm
          · exact finset_disj_absurd h2 hSa huM
        · rcases Finset.mem_union.mp hSmUm with hSm | huM
          · exact finset_disj_absurd h3 huA hSm
          · exact finset_disj_absurd h4 huA huM
      · exact hnCa (Finset.mem_inter.mp (Finset.mem_inter.mp hom).2).1
    · exact hnCa (Finset.mem_inter.mp hcc).1
  · have hCm := (Finset.mem_inter.mp hcmM).1
    rcases Finset.mem_union.mp hpA with hsa | hcc
    · rcases Finset.mem_union.mp hsa with hstA | hom
      · rcases Finset.mem_union.mp hstA with hSa | huA
        · exact finset_disj_absurd h5 hSa hCm
        · exact finset_disj_absurd h6 huA hCm
      · exact finset_disj_absurd h7 (Finset.mem_inter.mp (Finset.mem_inter.mp hom).2).1 hCm
    · exact finset_disj_absurd h7 (Finset.mem_inter.mp hcc).1 hCm

/-- Counterexample to C5 as stated: in `gRen` the target `y` of the pair
returned by `renamed_files` is also in the `modified_files` result for the
same arguments, so the four result sets are not pairwise disjoint on
paths. -/
theorem c5_counterexample :
    renamedFiles gRen "master" false false = .ok {("x", "y")} ∧
    modifiedFiles gRen "master" false false = .ok {"y"} ∧
    (("x", "y") : String × String).2 ∈ ({"y"} : Finset String) :=
  ⟨rfl, rfl, by decide⟩

/-- C5 amended: the `added_files`, `modified_files` and `deleted_files`
results are pairwise disjoint for the same arguments — in particular no path
is in both the added and the modified result — under the git-status
uniqueness side conditions (one status per path within each diff, and
index-diff/untracked statuses exclude committed-Modified status). Renamed
pair paths are not disjoint from the other results (see the
counterexample). -/
theorem c5_amended_reported_status_unique :
    ∀ (g : GitRepo) (ref : String) (c s : Bool) (d : CommitDiffData)
      (uA uM : Finset String) (A M D : Finset String),
      g.remoteRefs (stripOrigin ref) = some d →
      getUntrackedFiles g "A" = .ok uA →
      getUntrackedFiles g "M" = .ok uM →
      ((g.stagedDiff 'A').image toPath) ∩ ((g.stagedDiff 'M').image toPath) = ∅ →
      ((g.stagedDiff 'A').image toPath) ∩ uM = ∅ →
      uA ∩ ((g.stagedDiff 'M').image toPath) = ∅ →
      uA ∩ uM = ∅ →
      ((g.stagedDiff 'A').image toPath) ∩ ((d.byKind 'M').image toPath) = ∅ →
      uA ∩ ((d.byKind 'M').image toPath) = ∅ →
      ((d.byKind 'A').image toPath) ∩ ((d.byKind 'M').image toPath) = ∅ →
      addedFiles g ref c s = .ok A →
      modifiedFiles g ref c s = .ok M →
      deletedFiles g (stripOrigin ref) c s = .ok D →
      A ∩ M = ∅ ∧ A ∩ D = ∅ ∧ M ∩ D = ∅ := by
  intro g ref c s d uA uM A M D hres huA huM h1 h2 h3 h4 h5 h6 h7 hA hM hD
  obtain ⟨D₁, d₁, hD₁, hd₁, hbrA⟩ := addedFiles_ok_inv hA
  rw [hres] at hd₁
  cases Option.some.inj hd₁
  rw [hD] at hD₁
  cases Except.ok.inj hD₁
  obtain ⟨R, D₂, d₂, hR₂, hD₂, hd₂, hbrM⟩ := modifiedFiles_ok_inv hM
  rw [hres] at hd₂
  cases Option.some.inj hd₂
  rw [hD] at hD₂
  cases Except.ok.inj hD₂
  have hAD : A ∩ D = ∅ := by
    apply Finset.eq_empty_iff_forall_not_mem.mpr
    intro p hp
    rw [Finset.mem_inter] at hp
    rcases hbrA with ⟨_, hAeq⟩ | ⟨_, u, _, ⟨_, hAeq⟩ | ⟨_, hAeq⟩⟩ <;>
      · subst hAeq
        exact (Finset.mem_sdiff.mp hp.1).2 hp.2
  have hMD : M ∩ D = ∅ := by
    apply Finset.eq_empty_iff_forall_not_mem.mpr
    intro p hp
    rw [Finset.mem_inter] at hp
    rcases hbrM with ⟨_, hMeq⟩ | ⟨_, u, _, ⟨_, hMeq⟩ | ⟨_, hMeq⟩⟩ <;>
      · subst hMeq
        exact (Finset.mem_sdiff.mp hp.1).2 hp.2
  refine ⟨?_, hAD, hMD⟩
  apply Finset.eq_empty_iff_forall_not_mem.mpr
  intro p hp
  rw [Finset.mem_inter] at hp
  have hcore := added_modified_core_disjoint g (stripOrigin ref) d uA uM
    h1 h2 h3 h4 h5 h6 h7 p
  rcases hbrA with ⟨hc, hAeq⟩ | ⟨hc, u, hu, hbrA'⟩
  · subst hc
    subst hAeq
    have hpA : p ∈ committedOf g (stripOrigin ref) d 'A' := (Finset.mem_sdiff.mp hp.1).1
    rcases hbrM with ⟨_, hMeq⟩ | ⟨hfalse, _⟩
    · subst hMeq
      have hpM : p ∈ committedOf g (stripOrigin ref) d 'M' :=
        (Finset.mem_sdiff.mp (Finset.mem_sdiff.mp hp.2).1).1
      exact hcore (Finset.mem_union_right _ hpA) (Finset.mem_union_right _ hpM)
    · exact Bool.noConfusion hfalse
  · subst hc
    rw [huA] at hu
    cases Except.ok.inj hu
    rcases hbrM with ⟨hfalse, _⟩ | ⟨_, u', hu', hbrM'⟩
    · exact Bool.noConfusion hfalse
    · rw [huM] at hu'
      cases Except.ok.inj hu'
      rcases hbrA' with ⟨hs, hAeq⟩ | ⟨hs, hAeq⟩ <;>
        rcases hbrM' with ⟨hs', hMeq⟩ | ⟨hs', hMeq⟩
      · subst hAeq hMeq
        exact hcore
          (Finset.mem_union_left _ ((Finset.mem_sdiff.mp hp.1).1))
          (Finset.mem_union_left _
            ((Finset.mem_sdiff.mp (Finset.mem_sdiff.mp hp.2).1).1))
      · subst hs
        exact Bool.noConfusion hs'
      · subst hs'
        exact Bool.noConfusion hs
      · subst hAeq hMeq
        have hpA' := (Finset.mem_sdiff.mp hp.1).1
        have hpM' := (Finset.mem_sdiff.mp (Finset.mem_sdiff.mp hp.2).1).1
        rcases Finset.mem_union.mp hpA' with hx | hx
        · rcases Finset.mem_union.mp hpM' with hy | hy
          · exact hcore (Finset.mem_union_left _ hx) (Finset.mem_union_left _ hy)
          · exact hcore (Finset.mem_union_left _ hx) (Finset.mem_union_right _ hy)
        · rcases Finset.mem_union.mp hpM' with hy | hy
          · exact hcore (Finset.mem_union_right _ hx) (Finset.mem_union_left _ hy)
          · exact hcore (Finset.mem_union_right _ hx) (Finset.mem_union_right _ hy)

/-- Witness for the amended C5 on `gAddRel`: the added result `{p}`, the
modified result `∅` and the deleted result `∅` are pairwise disjoint. -/
theorem c5_amended_witness :
    addedFiles gAddRel "master" false false = .ok {"p"} ∧
    modifiedFiles gAddRel "master" false false = .ok (∅ : Finset String) ∧
    deletedFiles gAddRel (stripOrigin "master") false false = .ok (∅ : Finset String) ∧
    (({"p"} : Finset String) ∩ (∅ : Finset String) = ∅ ∧
      ({"p"} : Finset String) ∩ (∅ : Finset String) = ∅ ∧
      (∅ : Finset String) ∩ (∅ : Finset String) = ∅) :=
  ⟨rfl, rfl, rfl,
    c5_amended_reported_status_unique gAddRel "master" false false dAddP ∅ ∅ {"p"} ∅ ∅
      rfl rfl rfl (by decide) (by decide) (by decide) (by decide) (by decide) (by decide)
      (by decide) rfl rfl rfl⟩

/-- Counterexample to C8 as stated: in `gBadStatus` the reference resolves,
yet `deleted_files` raises (an `IndexError` from parsing the whitespace-only
status line), refuting "under a resolvable reference no operation
raises". -/
theorem c8_counterexample :
    (gBadStatus.remoteRefs (stripOrigin "master")).isSome = true ∧
    deletedFiles gBadStatus "master" false false = .error .indexError :=
  ⟨rfl, rfl⟩

/-- C8 amended: construction fails with the repository-unavailable error
exactly when no repository is passed and none is discovered; for a
normalization-stable reference each operation fails with the
unknown-reference error exactly when the stripped reference does not
resolve; the only other possible failure is the `IndexError` arising from a
status line with too few tokens; and an empty repository state (empty
diffs, empty status output) yields empty result sets for all operations and
flag modes. -/
theorem c8_amended_error_behaviour :
    (∀ (repoArg cwdRepo : Option GitRepo),
      gitUtilInit repoArg cwdRepo = .error .repositoryUnavailable ↔
        repoArg = none ∧ cwdRepo = none) ∧
    (∀ (g : GitRepo) (ref : String) (c s : Bool),
      stripOrigin (stripOrigin ref) = stripOrigin ref →
      ((modifiedFiles g ref c s = .error .unknownReference ↔
          g.remoteRefs (stripOrigin ref) = none) ∧
       (addedFiles g ref c s = .error .unknownReference ↔
          g.remoteRefs (stripOrigin ref) = none) ∧
       (deletedFiles g ref c s = .error .unknownReference ↔
          g.remoteRefs (stripOrigin ref) = none) ∧
       (renamedFiles g ref c s = .error .unknownReference ↔
          g.remoteRefs (stripOrigin ref) = none))) ∧
    (∀ (g : GitRepo) (ref : String) (c s : Bool) (e : GitError),
      stripOrigin (stripOrigin ref) = stripOrigin ref →
      (modifiedFiles g ref c s = .error e ∨ addedFiles g ref c s = .error e ∨
       deletedFiles g ref c s = .error e ∨ renamedFiles g ref c s = .error e) →
      e = .unknownReference ∨ e = .indexError) ∧
    (∀ (g : GitRepo) (ref : String) (c s : Bool) (d : CommitDiffData),
      stripOrigin (stripOrigin ref) = stripOrigin ref →
      g.remoteRefs (stripOrigin ref) = some d →
      (∀ k, d.byKind k = ∅) → d.renames = ∅ →
      (∀ k, g.stagedDiff k = ∅) → g.stagedRenames = ∅ → g.statusOutput = "" →
      modifiedFiles g ref c s = .ok ∅ ∧ addedFiles g ref c s = .ok ∅ ∧
      deletedFiles g ref c s = .ok ∅ ∧ renamedFiles g ref c s = .ok ∅) := by
  refine ⟨?_, ?_, ?_, ?_⟩
  · intro repoArg cwdRepo
    cases repoArg with
    | some r => simp [gitUtilInit]
    | none => cases cwdRepo <;> simp [gitUtilInit]
  · intro g ref c s hidem
    refine ⟨⟨?_, fun hnone => modifiedFiles_none hidem hnone⟩,
            ⟨?_, fun hnone => addedFiles_none hidem hnone⟩,
            ⟨?_, fun hnone => deletedFiles_none hnone⟩,
            ⟨?_, fun hnone => renamedFiles_none hidem hnone⟩⟩
    · intro h
      rcases modifiedFiles_error hidem h with ⟨_, hnone⟩ | he
      · exact hnone
      · exact GitError.noConfusion he
    · intro h
      rcases addedFiles_error hidem h with ⟨_, hnone⟩ | he
      · exact hnone
      · exact GitError.noConfusion he
    · intro h
      rcases deletedFiles_error h with ⟨_, hnone⟩ | he
      · exact hnone
      · exact GitError.noConfusion he
    · intro h
      rcases renamedFiles_error hidem h with ⟨_, hnone⟩ | he
      · exact hnone
      · exact GitError.noConfusion he
  · intro g ref c s e hidem hop
    rcases hop with h | h | h | h
    · rcases modifiedFiles_error hidem h with ⟨he, _⟩ | he
      · exact Or.inl he
      · exact Or.inr he
    · rcases addedFiles_error hidem h with ⟨he, _⟩ | he
      · exact Or.inl he
      · exact Or.inr he
    · rcases deletedFiles_error h with ⟨he, _⟩ | he
      · exact Or.inl he
      · exact Or.inr he
    · rcases renamedFiles_error hidem h with ⟨he, _⟩ | he
      · exact Or.inl he
      · exact Or.inr he
  · intro g ref c s d hidem hres hk hren hstag hsr hstatus
    exact ⟨modifiedFiles_emptyState hidem hres hk hren hstag hsr hstatus,
           addedFiles_emptyState hidem hres hk hstag hstatus,
           deletedFiles_emptyState hres hk hstag hstatus,
           renamedFiles_emptyState hidem hres hk hren hstag hsr hstatus⟩

/-- Witness for the amended C8: construction with neither a passed nor a
discovered repository fails with the repository-unavailable error, and on
the changeless repository `gEmpty` the modified result is empty. -/
theorem c8_amended_witness :
    gitUtilInit none none = .error .repositoryUnavailable ∧
    modifiedFiles gEmpty "master" false false = .ok (∅ : Finset String) :=
  ⟨(c8_amended_error_behaviour.1 none none).mpr ⟨rfl, rfl⟩,
   (c8_amended_error_behaviour.2.2.2 gEmpty "master" false false dEmpty rfl rfl
     (fun _ => rfl) rfl (fun _ => rfl) rfl rfl).1⟩
